import Mathlib

/-!
Verification development for the markdown-to-block conversion core of the
youtube-to-notion service (`src/services/notion.ts`).

The embedding models, over `List Char` / `String`:
  * `parseRichText` — the inline span parser built on the JS regex split
    `text.split(/(\*\*.*?\*\*|\*.*?\*|X.*?X)/g)` (X a backtick) followed by
    per-part classification into bold / italic / code / plain runs;
  * `markdownToBlocks` — the line classifier (headings, bullets, numbered
    items, quotes, fenced code regions, paragraphs);
  * `createPagePlan` — the pure title-promotion part of `createPage`.

JS string primitives are modelled as follows: `String.prototype.trim` drops
ASCII whitespace at both ends (`jsTrim`); `\d` is `Char.isDigit`; `\s` is
`isJsSpace`; `toLowerCase` maps `Char.toLower` over the characters (faithful
on the ASCII range); `split('\n')` is `splitLines`. The regex scan is
modelled by a leftmost-match scanner whose alternatives are tried in the
regex's order (bold, then italic, then code), with lazy closing-delimiter
search that cannot cross a newline (as `.` does not match `\n`).
-/

namespace YtNotion

/-- One JS whitespace character (the ASCII portion of the `\s` class and of
`String.prototype.trim`). -/
def isJsSpace (c : Char) : Bool :=
  c = ' ' ∨ c = '\t' ∨ c = '\n' ∨ c = '\r' ∨ c = '\x0b' ∨ c = '\x0c'

/-- Model of `String.prototype.trim`: drop whitespace from both ends. -/
def jsTrim (s : String) : String :=
  ⟨((s.data.dropWhile isJsSpace).reverse.dropWhile isJsSpace).reverse⟩

/-- Model of `String.prototype.toLowerCase` (faithful on ASCII). -/
def jsToLower (s : String) : String :=
  ⟨s.data.map Char.toLower⟩

/-- Model of `s.startsWith(p)`. -/
def strStartsWith (s p : String) : Bool :=
  s.data.take p.data.length = p.data

/-- Model of `s.endsWith(p)` on character lists. -/
def endsWithL (s p : List Char) : Bool :=
  p.length ≤ s.length ∧ s.drop (s.length - p.length) = p

/-- Model of `s.substring(n)` / `s.slice(n)`. -/
def strDrop (s : String) (n : Nat) : String :=
  ⟨s.data.drop n⟩

/-- Drop the last `n` characters (used for `slice(k, -n)`). -/
def dropLastN (n : Nat) (l : List Char) : List Char :=
  l.take (l.length - n)

/-- Model of `markdown.split('\n')`: split on newlines, keeping empty
segments; the empty string yields `[""]`. -/
def splitLinesL : List Char → List (List Char)
  | [] => [[]]
  | c :: rest =>
    let r := splitLinesL rest
    if c = '\n' then [] :: r else (c :: r.headD []) :: r.tail

def splitLines (s : String) : List String :=
  (splitLinesL s.data).map (fun l => ⟨l⟩)

/-! ### The inline regex scan

The regex `(\*\*.*?\*\*|\*.*?\*|X.*?X)` (X a backtick) is matched
leftmost-first; at a given start position the three alternatives are tried
in order, and each lazy `.*?` stops at the first occurrence of the closing
delimiter (never crossing a newline, since `.` excludes `\n`). -/

/-- Lazy search for the closing `**`: splits `cs` into the shortest
newline-free payload and the remainder after the two closing stars. -/
def findClose2 : List Char → Option (List Char × List Char)
  | c1 :: c2 :: rest =>
    if c1 = '*' ∧ c2 = '*' then some ([], rest)
    else if c1 = '\n' then none
    else
      match findClose2 (c2 :: rest) with
      | some (x, r) => some (c1 :: x, r)
      | none => none
  | _ => none

/-- Lazy search for a single closing delimiter `d`. -/
def findClose1 (d : Char) : List Char → Option (List Char × List Char)
  | c :: rest =>
    if c = d then some ([], rest)
    else if c = '\n' then none
    else
      match findClose1 d rest with
      | some (x, r) => some (c :: x, r)
      | none => none
  | [] => none

/-- Try the `\*\*.*?\*\*` alternative at the current position. -/
def matchBold (s : List Char) : Option (List Char × List Char) :=
  match s with
  | c1 :: c2 :: rest =>
    if c1 = '*' ∧ c2 = '*' then
      match findClose2 rest with
      | some (x, r) => some ('*' :: '*' :: (x ++ ['*', '*']), r)
      | none => none
    else none
  | _ => none

/-- Try a single-character-delimited alternative (`\*.*?\*` or the backtick
form) at the current position. -/
def matchDelim (d : Char) (s : List Char) : Option (List Char × List Char) :=
  match s with
  | c :: rest =>
    if c = d then
      match findClose1 d rest with
      | some (x, r) => some (d :: (x ++ [d]), r)
      | none => none
    else none
  | [] => none

/-- One attempt of the combined regex at the current position: alternatives
in the regex's order (bold, italic, code). Returns the matched text and the
remainder. -/
def matchAt (s : List Char) : Option (List Char × List Char) :=
  match matchBold s with
  | some res => some res
  | none =>
    match matchDelim '*' s with
    | some res => some res
    | none => matchDelim '\x60' s

/-- The splitting scan of `String.prototype.split` with a capturing group:
produces the alternating list of unmatched segments and matches (both kept,
possibly empty). `fuel` bounds the recursion; `s.length + 1` always
suffices. -/
def splitAuxF (fuel : Nat) (acc : List Char) (s : List Char) : List (List Char) :=
  match fuel with
  | 0 => [acc.reverse]
  | fuel + 1 =>
    match s with
    | [] => [acc.reverse]
    | c :: rest =>
      match matchAt (c :: rest) with
      | some (m, r) => acc.reverse :: m :: splitAuxF fuel [] r
      | none => splitAuxF fuel (c :: acc) rest

def splitParts (s : List Char) : List (List Char) :=
  splitAuxF (s.length + 1) [] s

/-! ### Rich text runs -/

/-- One Notion rich_text object as produced by `parseRichText`: a text run
with at most one of the bold / italic / code annotations. -/
inductive RichText
  | plainR (content : String)
  | boldR (content : String)
  | italicR (content : String)
  | codeR (content : String)
deriving DecidableEq, Repr

def RichText.content : RichText → String
  | .plainR c => c
  | .boldR c => c
  | .italicR c => c
  | .codeR c => c

inductive RichStyle
  | plain
  | bold
  | italic
  | code
deriving DecidableEq, Repr

def RichText.style : RichText → RichStyle
  | .plainR _ => .plain
  | .boldR _ => .bold
  | .italicR _ => .italic
  | .codeR _ => .code

/-- The per-part classification of the loop body of `parseRichText`:
`startsWith('**') && endsWith('**') && length > 4` → bold (slice 2,-2),
else the italic test with `length > 2` (slice 1,-1), else the code test
with `length > 2`, else a plain run. -/
def classifyPart (p : List Char) : RichText :=
  if p.take 2 = ['*', '*'] ∧ endsWithL p ['*', '*'] ∧ 4 < p.length then
    .boldR ⟨dropLastN 2 (p.drop 2)⟩
  else if p.take 1 = ['*'] ∧ endsWithL p ['*'] ∧ 2 < p.length then
    .italicR ⟨dropLastN 1 (p.drop 1)⟩
  else if p.take 1 = ['\x60'] ∧ endsWithL p ['\x60'] ∧ 2 < p.length then
    .codeR ⟨dropLastN 1 (p.drop 1)⟩
  else
    .plainR ⟨p⟩

/-- `parseRichText` from `src/services/notion.ts`: split on the combined
regex, skip empty parts (`if (!part) continue`), classify each part. -/
def parseRichText (text : String) : List RichText :=
  (splitParts text.data).filterMap
    (fun p => if p.isEmpty then none else some (classifyPart p))

/-- No delimiter characters (asterisk or backtick) anywhere in the string. -/
def noDelims (s : String) : Bool :=
  s.data.all (fun c => !(c = '*') && !(c = '\x60'))

/-- No two adjacent runs share a style. -/
def stylesDistinctAdj : List RichText → Bool
  | a :: b :: t => !(a.style = b.style) && stylesDistinctAdj (b :: t)
  | _ => true

/-- Concatenation of the text contents of a run sequence, styles ignored. -/
def concatRuns (rs : List RichText) : String :=
  rs.foldl (fun a r => a ++ r.content) ""

/-! ### The block classifier -/

/-- One Notion block as produced by `markdownToBlocks`. Headings carry their
single literal text run as a (plain) rich-text list, mirroring the
`rich_text: [{ type: 'text', text: { content } }]` shape of the source. -/
inductive Block
  | heading1 (rich : List RichText)
  | heading2 (rich : List RichText)
  | heading3 (rich : List RichText)
  | bulleted (rich : List RichText)
  | numbered (rich : List RichText)
  | quote (rich : List RichText)
  | codeB (content : String) (language : String)
  | paragraph (rich : List RichText)
deriving DecidableEq, Repr

/-- The mutable state of the `markdownToBlocks` loop. -/
structure MdState where
  blocks : List Block
  inCodeBlock : Bool
  codeBlockLanguage : String
  codeBlockContent : List String
deriving DecidableEq, Repr

def initState : MdState :=
  { blocks := [], inCodeBlock := false,
    codeBlockLanguage := "plain text", codeBlockContent := [] }

/-- The regex test `/^\d+\.\s/.test(trimmed)`: one or more digits, a
period, then one whitespace character, at the start. Backtracking over
`\d+` cannot help (fewer digits leave a digit where the period must be),
so maximal munch is faithful. -/
def numTest (t : String) : Bool :=
  let ds := t.data.takeWhile Char.isDigit
  !ds.isEmpty &&
    match t.data.drop ds.length with
    | '.' :: c :: _ => isJsSpace c
    | _ => false

/-- `trimmed.replace(/^\d+\.\s/, '')`: drop the digits, the period and the
single whitespace character (the prefix's literal length). -/
def stripNumPrefix (t : String) : String :=
  ⟨t.data.drop ((t.data.takeWhile Char.isDigit).length + 2)⟩

/-- The emitted language: `codeBlockLanguage.toLowerCase() || 'plain text'`
(the empty string is falsy in JS). -/
def normLang (lang : String) : String :=
  if jsToLower lang = "" then "plain text" else jsToLower lang

/-- The language captured on entering a fence:
`line.trim().substring(3).trim()`, with the empty tag replaced by
`"plain text"`. Takes the already trimmed line. -/
def fenceLang (trimmed : String) : String :=
  if jsTrim (strDrop trimmed 3) = "" then "plain text"
  else jsTrim (strDrop trimmed 3)

/-- The non-fence, non-code-mode part of the loop body: skip blank lines,
then the prefix tests in source order. Takes the trimmed line. -/
def classifyLine (st : MdState) (trimmed : String) : MdState :=
  if trimmed = "" then st
  else if strStartsWith trimmed "# " then
    { st with blocks := st.blocks ++ [.heading1 [.plainR (strDrop trimmed 2)]] }
  else if strStartsWith trimmed "## " then
    { st with blocks := st.blocks ++ [.heading2 [.plainR (strDrop trimmed 3)]] }
  else if strStartsWith trimmed "### " then
    { st with blocks := st.blocks ++ [.heading3 [.plainR (strDrop trimmed 4)]] }
  else if strStartsWith trimmed "- " then
    { st with blocks := st.blocks ++ [.bulleted (parseRichText (strDrop trimmed 2))] }
  else if numTest trimmed then
    { st with blocks := st.blocks ++ [.numbered (parseRichText (stripNumPrefix trimmed))] }
  else if strStartsWith trimmed "> " then
    { st with blocks := st.blocks ++ [.quote (parseRichText (strDrop trimmed 2))] }
  else
    { st with blocks := st.blocks ++ [.paragraph (parseRichText trimmed)] }

/-- One iteration of the `markdownToBlocks` loop over a raw line: the fence
toggle first, then verbatim accumulation while inside a code block, then
`classifyLine` on the trimmed line. -/
def processLine (st : MdState) (line : String) : MdState :=
  if strStartsWith (jsTrim line) "```" then
    if st.inCodeBlock then
      { blocks := st.blocks ++
          [.codeB (String.intercalate "\n" st.codeBlockContent) (normLang st.codeBlockLanguage)],
        inCodeBlock := false, codeBlockLanguage := "plain text", codeBlockContent := [] }
    else
      { st with inCodeBlock := true, codeBlockLanguage := fenceLang (jsTrim line) }
  else if st.inCodeBlock then
    { st with codeBlockContent := st.codeBlockContent ++ [line] }
  else
    classifyLine st (jsTrim line)

/-- `markdownToBlocks` on an already-split list of lines. -/
def blocksOfLines (lines : List String) : List Block :=
  (lines.foldl processLine initState).blocks

/-- `markdownToBlocks` from `src/services/notion.ts`. -/
def markdownToBlocks (markdown : String) : List Block :=
  blocksOfLines (splitLines markdown)

/-! ### The pure part of `createPage` -/

/-- The page title and body blocks `createPage` sends to the API (the rest
of `createPage` is network orchestration). -/
structure PagePlan where
  pageTitle : String
  children : List Block
deriving DecidableEq, Repr

/-- `children.length > 0 && children[0].type === 'heading_1'` followed by
`children.shift()`. -/
def shiftIfHeading1 : List Block → List Block
  | Block.heading1 _ :: t => t
  | other => other

/-- Title-promotion logic of `createPage`: if the trimmed first line of the
markdown starts with `# `, it overrides the caller's title and a leading
`heading_1` block is dropped from the body. -/
def createPagePlan (title contentMarkdown : String) : PagePlan :=
  let children := markdownToBlocks contentMarkdown
  let firstLine := jsTrim ((splitLines contentMarkdown).headD "")
  if strStartsWith firstLine "# " then
    { pageTitle := strDrop firstLine 2, children := shiftIfHeading1 children }
  else
    { pageTitle := title, children := children }

end YtNotion

namespace YtNotion

example : parseRichText "**a*b*c**" = [.boldR "a*b*c"] := by decide
example : parseRichText "****" = [.italicR "**"] := by decide
example : parseRichText "**" = [.plainR "**"] := by decide
example : parseRichText "a**b" = [.plainR "a", .plainR "**", .plainR "b"] := by decide
example : parseRichText "" = [] := by decide
example : parseRichText "Open the **Settings** menu" =
    [.plainR "Open the ", .boldR "Settings", .plainR " menu"] := by decide

example : markdownToBlocks "" = [] := by decide
example : markdownToBlocks "```python\nprint(\"hi\")\n```" =
    [.codeB "print(\"hi\")" "python"] := by decide
example : markdownToBlocks "```Python\nx\n```" = [.codeB "x" "python"] := by decide
example : blocksOfLines ["1. Open the **Settings** menu"] =
    [.numbered [.plainR "Open the ", .boldR "Settings", .plainR " menu"]] := by decide
example : blocksOfLines ["# T", "```js", "a", "b"] = [.heading1 [.plainR "T"]] := by decide
example : createPagePlan "T" "\n# Hello" = ⟨"T", [.heading1 [.plainR "Hello"]]⟩ := by decide
example : createPagePlan "T" "# Hello\nbody" = ⟨"Hello", [.paragraph [.plainR "body"]]⟩ := by
  decide

/-! ## Basic facts about the inline parser -/

lemma mk_ne_empty_of_length (l : List Char) (h : 0 < l.length) : (⟨l⟩ : String) ≠ "" := by
  intro hc
  have hd : l = [] := congrArg String.data hc
  rw [hd] at h
  simp at h

/-- Every classified nonempty part yields a run with nonempty content: the
bold branch requires `length > 4` and strips 4 characters, the italic and
code branches require `length > 2` and strip 2, and the plain branch keeps
the part itself. -/
lemma classifyPart_content_ne (p : List Char) (hp : p ≠ []) :
    (classifyPart p).content ≠ "" := by
  have hlen : 0 < p.length := List.length_pos.mpr hp
  unfold classifyPart
  split
  next h =>
    apply mk_ne_empty_of_length
    simp only [dropLastN, List.length_take, List.length_drop]
    omega
  next h =>
    split
    next h2 =>
      apply mk_ne_empty_of_length
      simp only [dropLastN, List.length_take, List.length_drop]
      omega
    next h2 =>
      split
      next h3 =>
        apply mk_ne_empty_of_length
        simp only [dropLastN, List.length_take, List.length_drop]
        omega
      next h3 =>
        exact mk_ne_empty_of_length p hlen

/-- Every run in the output of `parseRichText` comes from classifying a
nonempty part. -/
lemma parseRichText_run_mem (s : String) (r : RichText) (h : r ∈ parseRichText s) :
    ∃ p, p ≠ [] ∧ r = classifyPart p := by
  unfold parseRichText at h
  obtain ⟨p, _, he⟩ := List.mem_filterMap.mp h
  by_cases hpe : p.isEmpty
  · simp [hpe] at he
  · refine ⟨p, by simpa using hpe, ?_⟩
    simp [hpe] at he
    exact he.symm

/-- No zero-length run is ever emitted. -/
lemma parseRichText_content_ne (s : String) (r : RichText) (h : r ∈ parseRichText s) :
    r.content ≠ "" := by
  obtain ⟨p, hp, rfl⟩ := parseRichText_run_mem s r h
  exact classifyPart_content_ne p hp

lemma matchAt_none_of_head (c : Char) (rest : List Char) (h1 : c ≠ '*') (h2 : c ≠ '\x60') :
    matchAt (c :: rest) = none := by
  cases rest with
  | nil => simp [matchAt, matchBold, matchDelim, h1, h2]
  | cons d rest' => simp [matchAt, matchBold, matchDelim, h1, h2]

lemma splitAuxF_no_delim (fuel : Nat) :
    ∀ (acc s : List Char), s.length < fuel → (∀ c ∈ s, c ≠ '*' ∧ c ≠ '\x60') →
      splitAuxF fuel acc s = [acc.reverse ++ s] := by
  induction fuel with
  | zero => intro acc s h _; exact absurd h (Nat.not_lt_zero _)
  | succ f ih =>
    intro acc s hlen hnd
    match s with
    | [] => simp [splitAuxF]
    | c :: rest =>
      have hc := hnd c (by simp)
      have hrest : rest.length < f := by
        simp only [List.length_cons] at hlen
        omega
      simp only [splitAuxF, matchAt_none_of_head c rest hc.1 hc.2]
      rw [ih (c :: acc) rest hrest (fun d hd => hnd d (by simp [hd]))]
      simp

lemma classifyPart_no_delim (p : List Char) (hp : p ≠ [])
    (hnd : ∀ c ∈ p, c ≠ '*' ∧ c ≠ '\x60') : classifyPart p = .plainR ⟨p⟩ := by
  obtain ⟨c, rest, rfl⟩ := List.exists_cons_of_ne_nil hp
  have hc := hnd c (by simp)
  unfold classifyPart
  rw [if_neg, if_neg, if_neg]
  · intro h
    have h1 := h.1
    simp at h1
    exact hc.2 h1
  · intro h
    have h1 := h.1
    simp at h1
    exact hc.1 h1
  · intro h
    have h1 := h.1
    simp at h1
    exact hc.1 h1.1

/-- A nonempty input free of delimiter characters parses to a single plain
run holding the whole string. -/
lemma parseRichText_no_delim (s : String) (hne : s ≠ "") (hnd : noDelims s = true) :
    parseRichText s = [.plainR s] := by
  have hl : ∀ c ∈ s.data, c ≠ '*' ∧ c ≠ '\x60' := by
    intro c hcmem
    have := List.all_eq_true.mp hnd c hcmem
    simp at this
    exact this
  have hdne : s.data ≠ [] := by
    intro h
    exact hne (String.ext (by simp [h]))
  unfold parseRichText splitParts
  rw [splitAuxF_no_delim _ [] s.data (Nat.lt_succ_self _) hl]
  simp only [List.reverse_nil, List.nil_append, List.filterMap]
  rw [classifyPart_no_delim s.data hdne hl]
  simp [hdne]

/-! ## Basic facts about the block classifier -/

lemma classifyLine_blank (st : MdState) : classifyLine st "" = st := by
  simp [classifyLine]

/-- A nonblank trimmed line always appends exactly one block. -/
lemma classifyLine_shape (st : MdState) (t : String) (ht : t ≠ "") :
    ∃ b, classifyLine st t = { st with blocks := st.blocks ++ [b] } := by
  unfold classifyLine
  rw [if_neg ht]
  repeat' split
  all_goals exact ⟨_, rfl⟩

lemma classifyLine_inCode (st : MdState) (t : String) :
    (classifyLine st t).inCodeBlock = st.inCodeBlock := by
  by_cases ht : t = ""
  · rw [ht, classifyLine_blank]
  · obtain ⟨b, hb⟩ := classifyLine_shape st t ht
    rw [hb]

/-- Outside code mode, a non-fence line is handled by `classifyLine` on its
trimmed form. -/
lemma processLine_of_not_fence (st : MdState) (line : String)
    (hcode : st.inCodeBlock = false)
    (hf : strStartsWith (jsTrim line) "```" = false) :
    processLine st line = classifyLine st (jsTrim line) := by
  simp [processLine, hf, hcode]

/-- Inside code mode, fence-free lines are accumulated verbatim and nothing
else changes. -/
lemma foldl_code_mode (body : List String) : ∀ st : MdState, st.inCodeBlock = true →
    (∀ l ∈ body, strStartsWith (jsTrim l) "```" = false) →
    body.foldl processLine st
      = { st with codeBlockContent := st.codeBlockContent ++ body } := by
  induction body with
  | nil => intro st _ _; simp
  | cons l body ih =>
    intro st hin hf
    have hfl := hf l (by simp)
    have hstep : processLine st l = { st with codeBlockContent := st.codeBlockContent ++ [l] } := by
      simp [processLine, hfl, hin]
    simp only [List.foldl_cons, hstep]
    rw [ih _ (by simpa using hin) (fun d hd => hf d (by simp [hd]))]
    simp

/-- Processing a line can only extend the block list. -/
lemma processLine_blocks_mono (st : MdState) (l : String) :
    ∃ t, (processLine st l).blocks = st.blocks ++ t := by
  by_cases h1 : strStartsWith (jsTrim l) "```" = true
  · by_cases h2 : st.inCodeBlock = true
    · exact ⟨[Block.codeB (String.intercalate "\n" st.codeBlockContent)
          (normLang st.codeBlockLanguage)], by simp [processLine, h1, h2]⟩
    · exact ⟨[], by simp [processLine, h1, h2]⟩
  · by_cases h2 : st.inCodeBlock = true
    · exact ⟨[], by simp [processLine, h1, h2]⟩
    · rw [processLine_of_not_fence st l (by simpa using h2) (by simpa using h1)]
      by_cases hb : jsTrim l = ""
      · rw [hb, classifyLine_blank]
        exact ⟨[], by simp⟩
      · obtain ⟨b, hbb⟩ := classifyLine_shape st (jsTrim l) hb
        rw [hbb]
        exact ⟨[b], rfl⟩

lemma foldl_blocks_mono (lines : List String) : ∀ st : MdState,
    ∃ t, (lines.foldl processLine st).blocks = st.blocks ++ t := by
  induction lines with
  | nil => intro st; exact ⟨[], by simp⟩
  | cons l ls ih =>
    intro st
    obtain ⟨u, hu⟩ := processLine_blocks_mono st l
    obtain ⟨v, hv⟩ := ih (processLine st l)
    exact ⟨u ++ v, by rw [List.foldl_cons, hv, hu, List.append_assoc]⟩

/-- Outside code mode and with no fence lines, each nonblank line produces
exactly one block and blank lines produce none. -/
lemma foldl_count (lines : List String) : ∀ st : MdState, st.inCodeBlock = false →
    (∀ l ∈ lines, strStartsWith (jsTrim l) "```" = false) →
    (lines.foldl processLine st).blocks.length
      = st.blocks.length + lines.countP (fun l => !(jsTrim l = "")) := by
  induction lines with
  | nil => intro st _ _; simp
  | cons l ls ih =>
    intro st hcode hf
    have hfl := hf l (by simp)
    have hrest : ∀ d ∈ ls, strStartsWith (jsTrim d) "```" = false :=
      fun d hd => hf d (by simp [hd])
    simp only [List.foldl_cons, List.countP_cons]
    rw [processLine_of_not_fence st l hcode hfl]
    by_cases hb : jsTrim l = ""
    · rw [hb, classifyLine_blank]
      rw [ih st hcode hrest]
      simp [hb]
    · obtain ⟨b, hstep⟩ := classifyLine_shape st (jsTrim l) hb
      rw [hstep]
      rw [ih _ (by simpa using hcode) hrest]
      simp [hb]
      omega

/-! ## Step lemmas for the individual line kinds -/

lemma take_two_eq (l : List Char) (a b : Char) (h : l.take 2 = [a, b]) :
    ∃ r, l = a :: b :: r := by
  cases l with
  | nil => simp at h
  | cons x l' =>
    cases l' with
    | nil => simp at h
    | cons y r =>
      simp at h
      exact ⟨r, by rw [h.1, h.2]⟩

lemma take_three_eq (l : List Char) (a b c : Char) (h : l.take 3 = [a, b, c]) :
    ∃ r, l = a :: b :: c :: r := by
  cases l with
  | nil => simp at h
  | cons x l' =>
    cases l' with
    | nil => simp at h
    | cons y l'' =>
      cases l'' with
      | nil => simp at h
      | cons z r =>
        simp at h
        exact ⟨r, by rw [h.1, h.2.1, h.2.2]⟩

lemma take_four_eq (l : List Char) (a b c d : Char) (h : l.take 4 = [a, b, c, d]) :
    ∃ r, l = a :: b :: c :: d :: r := by
  cases l with
  | nil => simp at h
  | cons x l' =>
    cases l' with
    | nil => simp at h
    | cons y l'' =>
      cases l'' with
      | nil => simp at h
      | cons z l''' =>
        cases l''' with
        | nil => simp at h
        | cons w r =>
          simp at h
          exact ⟨r, by rw [h.1, h.2.1, h.2.2.1, h.2.2.2]⟩

lemma startsWith_false_of_ne (t p : String) (h : ¬ (t.data.take p.data.length = p.data)) :
    strStartsWith t p = false :=
  decide_eq_false h

lemma mk_ne_empty (c : Char) (r : List Char) : (⟨c :: r⟩ : String) ≠ "" := by
  intro hh
  have := congrArg String.data hh
  simp at this

/-- A trimmed line starting with `"# "` yields a Heading1 carrying exactly
one literal (plain) run with the remainder after the 2-character prefix. -/
lemma heading1_step (st : MdState) (line : String) (hcode : st.inCodeBlock = false)
    (h : strStartsWith (jsTrim line) "# " = true) :
    processLine st line
      = { st with blocks :=
            st.blocks ++ [.heading1 [.plainR (strDrop (jsTrim line) 2)]] } := by
  have h' : (jsTrim line).data.take 2 = ['#', ' '] := of_decide_eq_true h
  obtain ⟨r, e⟩ := take_two_eq _ _ _ h'
  have e' : jsTrim line = ⟨'#' :: ' ' :: r⟩ := String.ext e
  have hfence : strStartsWith (jsTrim line) "```" = false := by rw [e']; rfl
  rw [processLine_of_not_fence st line hcode hfence, e']
  unfold classifyLine
  rw [if_neg (mk_ne_empty _ _), if_pos]
  rfl

lemma heading2_step (st : MdState) (line : String) (hcode : st.inCodeBlock = false)
    (h : strStartsWith (jsTrim line) "## " = true) :
    processLine st line
      = { st with blocks :=
            st.blocks ++ [.heading2 [.plainR (strDrop (jsTrim line) 3)]] } := by
  have h' : (jsTrim line).data.take 3 = ['#', '#', ' '] := of_decide_eq_true h
  obtain ⟨r, e⟩ := take_three_eq _ _ _ _ h'
  have e' : jsTrim line = ⟨'#' :: '#' :: ' ' :: r⟩ := String.ext e
  have hfence : strStartsWith (jsTrim line) "```" = false := by rw [e']; rfl
  rw [processLine_of_not_fence st line hcode hfence, e']
  unfold classifyLine
  rw [if_neg (mk_ne_empty _ _), if_neg, if_pos]
  all_goals first
  | rfl
  | exact ne_true_of_eq_false rfl

lemma heading3_step (st : MdState) (line : String) (hcode : st.inCodeBlock = false)
    (h : strStartsWith (jsTrim line) "### " = true) :
    processLine st line
      = { st with blocks :=
            st.blocks ++ [.heading3 [.plainR (strDrop (jsTrim line) 4)]] } := by
  have h' : (jsTrim line).data.take 4 = ['#', '#', '#', ' '] := of_decide_eq_true h
  obtain ⟨r, e⟩ := take_four_eq _ _ _ _ _ h'
  have e' : jsTrim line = ⟨'#' :: '#' :: '#' :: ' ' :: r⟩ := String.ext e
  have hfence : strStartsWith (jsTrim line) "```" = false := by rw [e']; rfl
  rw [processLine_of_not_fence st line hcode hfence, e']
  unfold classifyLine
  rw [if_neg (mk_ne_empty _ _), if_neg, if_neg, if_pos]
  all_goals first
  | rfl
  | exact ne_true_of_eq_false rfl


/-- A line passing the numbered-item regex test starts with a digit. -/
lemma numTest_head (t : String) (h : numTest t = true) :
    ∃ c r, t.data = c :: r ∧ c.isDigit = true := by
  unfold numTest at h
  simp only [Bool.and_eq_true] at h
  cases e : t.data with
  | nil =>
    rw [e] at h
    simp at h
  | cons c r =>
    rw [e] at h
    refine ⟨c, r, rfl, ?_⟩
    by_cases hd : c.isDigit = true
    · exact hd
    · rw [List.takeWhile_cons, if_neg] at h
      · simp at h
      · exact hd

lemma digit_ne_specials (c : Char) (h : c.isDigit = true) :
    c ≠ '#' ∧ c ≠ '-' ∧ c ≠ '\x60' := by
  refine ⟨?_, ?_, ?_⟩ <;> intro hh <;> rw [hh] at h <;> exact absurd h (by decide)

/-- A trimmed line matching `/^\d+\.\s/` (and reached outside code mode)
yields a NumberedItem whose runs parse the line with the numeric prefix
stripped at its literal length. -/
lemma numbered_step (st : MdState) (line : String) (hcode : st.inCodeBlock = false)
    (h : numTest (jsTrim line) = true) :
    processLine st line
      = { st with blocks :=
            st.blocks ++ [.numbered (parseRichText (stripNumPrefix (jsTrim line)))] } := by
  obtain ⟨c, r, e, hd⟩ := numTest_head _ h
  obtain ⟨hC, hD, hB⟩ := digit_ne_specials c hd
  have hfence : strStartsWith (jsTrim line) "```" = false := by
    apply startsWith_false_of_ne
    rw [e]
    intro hh
    simp at hh
    exact hB hh.1
  have hne : jsTrim line ≠ "" := by
    intro hh
    rw [hh] at e
    simp at e
  have h1 : ¬ strStartsWith (jsTrim line) "# " = true := by
    apply ne_true_of_eq_false
    apply startsWith_false_of_ne
    rw [e]
    intro hh
    simp at hh
    exact hC hh.1
  have h2 : ¬ strStartsWith (jsTrim line) "## " = true := by
    apply ne_true_of_eq_false
    apply startsWith_false_of_ne
    rw [e]
    intro hh
    simp at hh
    exact hC hh.1
  have h3 : ¬ strStartsWith (jsTrim line) "### " = true := by
    apply ne_true_of_eq_false
    apply startsWith_false_of_ne
    rw [e]
    intro hh
    simp at hh
    exact hC hh.1
  have h4 : ¬ strStartsWith (jsTrim line) "- " = true := by
    apply ne_true_of_eq_false
    apply startsWith_false_of_ne
    rw [e]
    intro hh
    simp at hh
    exact hD hh.1
  rw [processLine_of_not_fence st line hcode hfence]
  unfold classifyLine
  rw [if_neg hne, if_neg h1, if_neg h2, if_neg h3, if_neg h4, if_pos h]

/-! ## Fenced code regions -/

/-- Entering a fence from outside code mode. -/
lemma fence_open_step (st : MdState) (line : String) (hcode : st.inCodeBlock = false)
    (h : strStartsWith (jsTrim line) "```" = true) :
    processLine st line
      = { st with inCodeBlock := true, codeBlockLanguage := fenceLang (jsTrim line) } := by
  simp [processLine, h, hcode]

/-- Closing a fence from inside code mode. -/
lemma fence_close_step (st : MdState) (line : String) (hcode : st.inCodeBlock = true)
    (h : strStartsWith (jsTrim line) "```" = true) :
    processLine st line
      = { blocks := st.blocks ++
            [.codeB (String.intercalate "\n" st.codeBlockContent) (normLang st.codeBlockLanguage)],
          inCodeBlock := false, codeBlockLanguage := "plain text", codeBlockContent := [] } := by
  simp [processLine, h, hcode]

/-- A complete fenced region processed from a clean state emits exactly one
code block whose content is the fence-free body joined by newlines and whose
language is the normalized captured tag. -/
lemma code_region (st : MdState) (openL closeL : String) (body : List String)
    (hcode : st.inCodeBlock = false) (hcontent : st.codeBlockContent = [])
    (hopen : strStartsWith (jsTrim openL) "```" = true)
    (hclose : strStartsWith (jsTrim closeL) "```" = true)
    (hbody : ∀ l ∈ body, strStartsWith (jsTrim l) "```" = false) :
    (openL :: (body ++ [closeL])).foldl processLine st
      = { blocks := st.blocks ++
            [.codeB (String.intercalate "\n" body) (normLang (fenceLang (jsTrim openL)))],
          inCodeBlock := false, codeBlockLanguage := "plain text", codeBlockContent := [] } := by
  simp only [List.foldl_cons, fence_open_step st openL hcode hopen]
  rw [List.foldl_append]
  rw [foldl_code_mode body _ (by simp) hbody]
  simp only [List.foldl_cons, List.foldl_nil]
  rw [fence_close_step _ closeL (by simp) hclose]
  simp [hcontent]

/-! ## First-line promotion -/

lemma splitLinesL_ne_nil (l : List Char) : splitLinesL l ≠ [] := by
  cases l with
  | nil => simp [splitLinesL]
  | cons c rest =>
    simp only [splitLinesL]
    split <;> simp

lemma splitLines_ne_nil (s : String) : splitLines s ≠ [] := by
  unfold splitLines
  simp [splitLinesL_ne_nil]

/-- If the trimmed first line starts with `"# "`, the first emitted block is
the corresponding Heading1. -/
lemma firstLine_heading1 (content : String)
    (h : strStartsWith (jsTrim ((splitLines content).headD "")) "# " = true) :
    markdownToBlocks content
      = Block.heading1 [.plainR (strDrop (jsTrim ((splitLines content).headD "")) 2)]
          :: (markdownToBlocks content).tail := by
  cases e : splitLines content with
  | nil => exact absurd e (splitLines_ne_nil content)
  | cons l0 rest =>
    rw [e] at h
    simp only [List.headD_cons] at h
    unfold markdownToBlocks blocksOfLines
    rw [e]
    simp only [List.foldl_cons]
    rw [heading1_step initState l0 rfl h]
    obtain ⟨t, ht⟩ := foldl_blocks_mono rest
      { initState with blocks :=
          initState.blocks ++ [.heading1 [.plainR (strDrop (jsTrim l0) 2)]] }
    rw [ht]
    simp [initState]


/-! ## Claims -/

/-- C1, counterexample: the input `****` is one delimited match (the bold
alternative with an empty payload), yet it is NOT emitted as Plain text
with the delimiters kept literally — it falls through the bold length
guard into the italic branch and comes out as an Italic run `**`. -/
theorem claim_C1_counterexample :
    parseRichText "****" ≠ [RichText.plainR "****"] ∧
      parseRichText "****" = [RichText.italicR "**"] := by
  constructor
  · decide
  · decide

/-- C1 (amended): a delimited match whose payload is empty after removing
its delimiters is emitted as a Plain run holding the delimiter characters
literally (`**` alone, or a pair of backticks), and no zero-length run is
ever emitted — EXCEPT the four-character match `****`, which is emitted as
an Italic run with content `**` (still not a Bold, Code, or zero-length
run). -/
theorem claim_C1 :
    parseRichText "**" = [RichText.plainR "**"] ∧
      parseRichText "``" = [RichText.plainR "``"] ∧
      parseRichText "****" = [RichText.italicR "**"] ∧
      ∀ (s : String) (r : RichText), r ∈ parseRichText s → r.content ≠ "" := by
  refine ⟨by decide, by decide, by decide, ?_⟩
  exact parseRichText_content_ne

/-- C1 witness: the general conjunct applied at a concrete run of a
concrete input. -/
theorem claim_C1_witness : (RichText.boldR "a").content ≠ "" :=
  claim_C1.2.2.2 "x**a**" (RichText.boldR "a") (by decide)

/-- C2, counterexample: on input `a**b` the parser returns three
consecutive Plain runs (the unmatched `**` falls back to plain text), so
the run sequence does contain two adjacent runs of the same style. -/
theorem claim_C2_counterexample :
    parseRichText "a**b" = [RichText.plainR "a", RichText.plainR "**", RichText.plainR "b"] ∧
      stylesDistinctAdj (parseRichText "a**b") = false := by
  constructor
  · decide
  · decide

/-- C2 (amended): the sequence of styled runs returned by the inline span
parser contains no zero-length run; adjacent runs may however share a
style (delimiter artifacts fall back to plain text next to plain text). -/
theorem claim_C2 :
    ∀ (s : String) (r : RichText), r ∈ parseRichText s → r.content ≠ "" :=
  parseRichText_content_ne

/-- C2 witness: no-zero-length-run at a concrete run of a concrete
input. -/
theorem claim_C2_witness : (RichText.plainR "hi").content ≠ "" :=
  claim_C2 "hi" (RichText.plainR "hi") (by decide)

/-- C3, counterexample: the opening fence ```` ```Python ```` yields the
language tag `python`, not the trimmed text `Python` — the code lowercases
the captured tag before emitting the block. -/
theorem claim_C3_counterexample :
    markdownToBlocks "```Python\nx\n```" = [Block.codeB "x" "python"] ∧
      markdownToBlocks "```Python\nx\n```" ≠ [Block.codeB "x" "Python"] := by
  constructor
  · decide
  · decide

/-- C3 (amended): for every fenced code region, the emitted CodeBlock's
language tag equals the LOWERCASED text following the three backticks on
the opening fence line, trimmed of surrounding whitespace, with an empty
tag normalized to "plain text"; in particular ```` ```python ```` yields a
CodeBlock with language tag `python`. -/
theorem claim_C3 :
    (∀ (st : MdState) (openL closeL : String) (body : List String),
        st.inCodeBlock = false → st.codeBlockContent = [] →
        strStartsWith (jsTrim openL) "```" = true →
        strStartsWith (jsTrim closeL) "```" = true →
        (∀ l ∈ body, strStartsWith (jsTrim l) "```" = false) →
        (openL :: (body ++ [closeL])).foldl processLine st
          = { blocks := st.blocks ++
                [.codeB (String.intercalate "\n" body)
                    (normLang (fenceLang (jsTrim openL)))],
              inCodeBlock := false, codeBlockLanguage := "plain text",
              codeBlockContent := [] }) ∧
      markdownToBlocks "```python\nprint(\"hi\")\n```"
        = [Block.codeB "print(\"hi\")" "python"] := by
  refine ⟨?_, by decide⟩
  intro st openL closeL body h1 h2 h3 h4 h5
  exact code_region st openL closeL body h1 h2 h3 h4 h5

/-- C3 witness: a concrete fenced region with tag `Python`, processed from
the initial state, emits one code block tagged `python`. -/
theorem claim_C3_witness :
    (("```Python" : String) :: (["x"] ++ ["```"])).foldl processLine initState
      = { blocks := [Block.codeB "x" "python"], inCodeBlock := false,
          codeBlockLanguage := "plain text", codeBlockContent := [] } :=
  (claim_C3.1 initState "```Python" "```" ["x"] rfl rfl (by decide) (by decide)
    (by decide)).trans (by decide)

/-- C4: if the document ends while still inside code-block mode
(unterminated fence), the buffered lines are discarded silently: the blocks
are exactly those of the prefix before the unterminated opening fence. (The
model is a total function, so no exception can be raised.) -/
theorem claim_C4 :
    ∀ (pre : List String) (openL : String) (rest : List String),
      (pre.foldl processLine initState).inCodeBlock = false →
      strStartsWith (jsTrim openL) "```" = true →
      (∀ l ∈ rest, strStartsWith (jsTrim l) "```" = false) →
      blocksOfLines (pre ++ openL :: rest) = blocksOfLines pre := by
  intro pre openL rest hpre hopen hrest
  unfold blocksOfLines
  rw [List.foldl_append]
  simp only [List.foldl_cons]
  rw [fence_open_step _ openL hpre hopen]
  rw [foldl_code_mode rest _ (by simp) hrest]

/-- C4 witness: an unterminated fence after one paragraph leaves exactly
that paragraph's block. -/
theorem claim_C4_witness :
    blocksOfLines (["a"] ++ "```js" :: ["x", "y"]) = blocksOfLines ["a"] :=
  claim_C4 ["a"] "```js" ["x", "y"] (by decide) (by decide) (by decide)

/-- C5: `**a*b*c**` parses as a single Bold run with content `a*b*c`; the
bold alternative is tried before italic, so the `**` pair is never read as
two adjacent single-asterisk italic delimiters. -/
theorem claim_C5 : parseRichText "**a*b*c**" = [RichText.boldR "a*b*c"] := by
  decide

/-- C6: for fence-free documents the number of emitted blocks equals the
number of lines that are nonblank after trimming, and the empty document
yields no blocks (the model is total, so no exception is thrown). -/
theorem claim_C6 :
    (∀ lines : List String,
        (∀ l ∈ lines, strStartsWith (jsTrim l) "```" = false) →
        (blocksOfLines lines).length
          = lines.countP (fun l => !(jsTrim l = ""))) ∧
      markdownToBlocks "" = [] := by
  refine ⟨?_, by decide⟩
  intro lines h
  have := foldl_count lines initState rfl h
  simpa [blocksOfLines, initState] using this

/-- C6 witness: the count invariant at a concrete fence-free document with
a blank line. -/
theorem claim_C6_witness :
    (blocksOfLines ["a", "", "# b"]).length
      = (["a", "", "# b"] : List String).countP (fun l => !(jsTrim l = "")) :=
  claim_C6.1 ["a", "", "# b"] (by decide)

/-- C7: outside code mode, a trimmed line matching "digits, period, one
space" emits a NumberedItem whose runs parse the line with the numeric
prefix stripped at its literal length (`stripNumPrefix` drops the digit
run plus two characters); concretely, `1. Open the **Settings** menu`
yields a NumberedItem with runs Plain/Bold/Plain. -/
theorem claim_C7 :
    (∀ (st : MdState) (line : String), st.inCodeBlock = false →
        numTest (jsTrim line) = true →
        processLine st line
          = { st with blocks := st.blocks ++
                [.numbered (parseRichText (stripNumPrefix (jsTrim line)))] }) ∧
      blocksOfLines ["1. Open the **Settings** menu"]
        = [.numbered [.plainR "Open the ", .boldR "Settings", .plainR " menu"]] := by
  refine ⟨?_, by decide⟩
  intro st line h1 h2
  exact numbered_step st line h1 h2

/-- C7 witness: a two-digit prefix is stripped at its literal length. -/
theorem claim_C7_witness :
    processLine initState "12. go"
      = { blocks := [Block.numbered [RichText.plainR "go"]], inCodeBlock := false,
          codeBlockLanguage := "plain text", codeBlockContent := [] } :=
  (claim_C7.1 initState "12. go" rfl (by decide)).trans (by decide)

/-- C8: outside code mode, trimmed lines starting with `# `, `## `, `### `
emit Heading1/2/3 blocks carrying exactly one literal (plain) text run with
the remainder after the 2-, 3-, 4-character prefix; the remainder is kept
literal (the concrete conjunct shows `**b**` surviving unparsed inside a
heading). -/
theorem claim_C8 :
    (∀ (st : MdState) (line : String), st.inCodeBlock = false →
        ((strStartsWith (jsTrim line) "# " = true →
            processLine st line
              = { st with blocks := st.blocks ++
                    [.heading1 [.plainR (strDrop (jsTrim line) 2)]] }) ∧
          (strStartsWith (jsTrim line) "## " = true →
            processLine st line
              = { st with blocks := st.blocks ++
                    [.heading2 [.plainR (strDrop (jsTrim line) 3)]] }) ∧
          (strStartsWith (jsTrim line) "### " = true →
            processLine st line
              = { st with blocks := st.blocks ++
                    [.heading3 [.plainR (strDrop (jsTrim line) 4)]] }))) ∧
      blocksOfLines ["# A **b**"] = [.heading1 [.plainR "A **b**"]] := by
  refine ⟨?_, by decide⟩
  intro st line hcode
  exact ⟨heading1_step st line hcode, heading2_step st line hcode,
    heading3_step st line hcode⟩

/-- C8 witness: the Heading2 conjunct at a concrete line. -/
theorem claim_C8_witness :
    processLine initState "## Sub"
      = { blocks := [Block.heading2 [RichText.plainR "Sub"]], inCodeBlock := false,
          codeBlockLanguage := "plain text", codeBlockContent := [] } :=
  ((claim_C8.1 initState "## Sub" rfl).2.1 (by decide)).trans (by decide)

/-- C9: a nonempty delimiter-free input yields exactly one Plain run with
the whole string; re-parsing the concatenated text content of any parse
result, when that concatenation is nonempty and delimiter-free, yields
exactly one Plain run equal to the concatenation; and the empty string
yields the empty run sequence. -/
theorem claim_C9 :
    (∀ s : String, s ≠ "" → noDelims s = true → parseRichText s = [RichText.plainR s]) ∧
      (∀ s : String, concatRuns (parseRichText s) ≠ "" →
        noDelims (concatRuns (parseRichText s)) = true →
        parseRichText (concatRuns (parseRichText s))
          = [RichText.plainR (concatRuns (parseRichText s))]) ∧
      parseRichText "" = [] := by
  refine ⟨parseRichText_no_delim, ?_, by decide⟩
  intro s h1 h2
  exact parseRichText_no_delim _ h1 h2

/-- C9 witness: the delimiter-free conjunct at a concrete input. -/
theorem claim_C9_witness : parseRichText "hello" = [RichText.plainR "hello"] :=
  claim_C9.1 "hello" (by decide) (by decide)

/-- C10: the page title is promoted from the document if and only if the
trimmed very first line starts with `# `: in that case the title is the
remainder after the prefix and the leading heading_1 block (always present
then) is removed from the body; otherwise the caller's title is used and
the body is unchanged — in particular a heading after a leading blank line
is not promoted and stays in the body. -/
theorem claim_C10 :
    (∀ title content : String,
        (strStartsWith (jsTrim ((splitLines content).headD "")) "# " = true →
          createPagePlan title content
            = { pageTitle := strDrop (jsTrim ((splitLines content).headD "")) 2,
                children := (markdownToBlocks content).tail }) ∧
        (strStartsWith (jsTrim ((splitLines content).headD "")) "# " = false →
          createPagePlan title content
            = { pageTitle := title, children := markdownToBlocks content })) ∧
      createPagePlan "Caller" "\n# Hello"
        = { pageTitle := "Caller", children := [.heading1 [.plainR "Hello"]] } := by
  refine ⟨?_, by decide⟩
  intro title content
  constructor
  · intro h
    unfold createPagePlan
    rw [if_pos h]
    have hfb := firstLine_heading1 content h
    rw [hfb]
    simp [shiftIfHeading1]
  · intro h
    unfold createPagePlan
    rw [if_neg (ne_true_of_eq_false h)]

/-- C10 witness: promotion at a concrete document whose first line is a
heading. -/
theorem claim_C10_witness :
    createPagePlan "T" "# H\nbody"
      = { pageTitle := "H", children := [Block.paragraph [RichText.plainR "body"]] } :=
  ((claim_C10.1 "T" "# H\nbody").1 (by decide)).trans (by decide)

end YtNotion
